import Mathlib

/-!
Verification model of `rvcc.py`, the RISC-V calling-convention reference model
(lowRISC/abicop).  All sizes and alignments are in bits, as in the source.

Modelling conventions:
* Python type-descriptor objects are values of `Ty`.  The fields a Python
  constructor computes and stores (`size`, `alignment`, padded `members`,
  and the result of `flatten()`, which is a pure function of the members)
  are stored in the corresponding constructor of `Ty`; the functions
  `mkStruct`, `mkUnion`, `mkArray` mirror `Struct.__init__` (including
  `add_padding`), `Union.__init__` and `Array.__init__`.
* Exceptions are modelled with `Except Err`.  `Err.invariant` stands for the
  internal `ValueError`s raised by the low-level placement operations of
  `CCState` (`assign_to_gpr`, `assign_to_fpr`, `skip_gpr`, `assign_to_stack`,
  `assign_to_gpr_or_stack`); `Err.crash` stands for non-`ValueError` runtime
  errors (`TypeError` from subscripting a `Struct`, arithmetic on a `None`
  size, `StopIteration` on an empty name mapping).
* Object identity is modelled by the `id` field of `Obj`; `copy.copy` is
  modelled by re-numbering ids (`Obj.setId`).
* Register files: the Python code indexes `gprs`/`fprs` at `(8-left)+10`;
  here the 8 argument registers a0..a7 / fa0..fa7 are slots 0..7 of
  `CCState.gprs` / `CCState.fprs`.  When no FP register file is configured
  the Python code stores `None` in `fprs`/`fprs_left`; here the unused
  fields are `replicate 8 none` and `0`, which no reachable code reads.
* The `xlen`/`flen` machine parameters are passed to the operations instead
  of being stored in the state; the Python code stores them in `CCState`
  but never mutates them.
-/

namespace RVCC

/-- Model of `align_to(x, align) = x - (x % -align)`: for `align > 0` this is
the least multiple of `align` that is `≥ x`. -/
def alignTo (x a : Nat) : Nat := (x + a - 1) / a * a

/-- Python type-descriptor objects: `Int`, `FP`, `Ptr`, `Pad`, `Struct`,
`Union`, `Array`.  Aggregates carry the fields their constructors store.
`poison` models an `FP` object whose `size` was overwritten with `None`
by varargs promotion on a machine without an FP register file. -/
inductive Ty where
  | int (size : Nat) (signed : Bool)
  | fp (size : Nat)
  | ptr (size : Nat)
  | pad (size : Nat)
  | structTy (members : List Ty) (size align : Nat) (flat : List Ty)
  | unionTy (size align : Nat)
  | arrayTy (size align : Nat) (flat : List Ty)
  | poison

/-- Field `size` of a type object (`poison` has no usable size; every read of
it in the source raises, which the classification code models as `crash`). -/
def Ty.size : Ty → Nat
  | .int s _ => s
  | .fp s => s
  | .ptr s => s
  | .pad s => s
  | .structTy _ s _ _ => s
  | .unionTy s _ => s
  | .arrayTy s _ _ => s
  | .poison => 0

/-- Field `alignment` of a type object (`Pad.alignment = 1`). -/
def Ty.alignment : Ty → Nat
  | .int s _ => s
  | .fp s => s
  | .ptr s => s
  | .pad _ => 1
  | .structTy _ _ a _ => a
  | .unionTy _ a => a
  | .arrayTy _ a _ => a
  | .poison => 0

/-- Method `flatten()`: defined on `Struct`/`Array` (stored at construction);
`Struct.flatten` treats every other type as a leaf, i.e. as `[ty]`. -/
def Ty.flatten : Ty → List Ty
  | .structTy _ _ _ f => f
  | .arrayTy _ _ f => f
  | t => [t]

/-- Field `members` (stored by `Struct.__init__` after `add_padding`). -/
def Ty.members : Ty → List Ty
  | .structTy m _ _ _ => m
  | _ => []

def Ty.isStruct : Ty → Bool
  | .structTy _ _ _ _ => true
  | _ => false

def Ty.isArray : Ty → Bool
  | .arrayTy _ _ _ => true
  | _ => false

def Ty.isFP : Ty → Bool
  | .fp _ => true
  | _ => false

def Ty.isInt : Ty → Bool
  | .int _ _ => true
  | _ => false

def Ty.isPad : Ty → Bool
  | .pad _ => true
  | _ => false

def Ty.isPoison : Ty → Bool
  | .poison => true
  | _ => false

/-- Method `Struct.add_padding`: insert `Pad` members so that every member
starts at an offset that is a multiple of its alignment (`cur_offset`
accumulates the sizes of emitted members, padding included). -/
def addPadding (off : Nat) : List Ty → List Ty
  | [] => []
  | m :: rest =>
    if off % m.alignment = 0 then
      m :: addPadding (off + m.size) rest
    else
      let p := m.alignment - off % m.alignment
      Ty.pad p :: m :: addPadding (off + p + m.size) rest

/-- Python `max` over a (nonempty) list of naturals. -/
def listMax (l : List Nat) : Nat := l.foldr max 0

/-- Constructor `Struct(*members)`.  A zero-member struct gets size 0 and
alignment 8 and is returned before padding is added.  Otherwise: padded
members are stored, `alignment` is the max alignment of the *given* members,
and `size` is the sum of the *given* members' sizes (the generator expression
in the source iterates the constructor argument, not the padded list) rounded
up to the alignment.  The stored `flat` field is the value `flatten()`
returns: the padded members, with `Struct`/`Array` members expanded. -/
def mkStruct (members : List Ty) : Ty :=
  match members with
  | [] => .structTy [] 0 8 []
  | _ =>
    let padded := addPadding 0 members
    let align := listMax (members.map Ty.alignment)
    let size := alignTo (members.map Ty.size).sum align
    .structTy padded size align (padded.map Ty.flatten).flatten

/-- Constructor `Union(*members)`: max alignment, max size rounded up. -/
def mkUnion (members : List Ty) : Ty :=
  let align := listMax (members.map Ty.alignment)
  .unionTy (alignTo (listMax (members.map Ty.size)) align) align

/-- Constructor `Array(ty, num_elements)`; `flatten()` repeats the element's
flattening `num_elements` times. -/
def mkArray (elemTy : Ty) (n : Nat) : Ty :=
  .arrayTy (elemTy.size * n) elemTy.alignment (List.replicate n elemTy.flatten).flatten

/-- Names handed out by `CCState.name_types`: positional arguments, variadic
arguments, and the return type. -/
inductive PName where
  | arg (n : Nat)
  | varg (n : Nat)
  | ret

/-- An object held in a register slot or stack slot:
* `whole nm ty` — the (copied) argument object itself;
* `part nm lo hi` — `Slice(obj, lo, hi)` over the named object
  (size and alignment are both `hi - lo + 1`);
* `refTo nm sz` — a `Ptr(xlen)` synthesized by `pass_by_reference`, whose
  name-map entry is the string `'&' + name(obj)` fixed at creation time. -/
inductive Item where
  | whole (nm : PName) (ty : Ty)
  | part (nm : PName) (lo hi : Nat)
  | refTo (nm : PName) (sz : Nat)

def Item.size : Item → Nat
  | .whole _ t => t.size
  | .part _ lo hi => hi - lo + 1
  | .refTo _ sz => sz

def Item.alignment : Item → Nat
  | .whole _ t => t.alignment
  | .part _ lo hi => hi - lo + 1
  | .refTo _ sz => sz

/-- Error taxonomy of the source:
`badWidth` — "unsupported XLEN/FLEN" at machine construction;
`uniq` — "Unique type objects must be used";
`invalidVarArgs` — the `InvalidVarArgs` exception;
`byvalArray` — "Byval arrays not supported in C";
`invariant` — the internal `ValueError`s of the placement operations;
`crash` — any non-`ValueError` runtime error (`TypeError`, `StopIteration`). -/
inductive Err where
  | badWidth
  | uniq
  | invalidVarArgs
  | byvalArray
  | invariant
  | crash
deriving DecidableEq

/-- The allocation state (`CCState`), with a0..a7 / fa0..fa7 as slots 0..7. -/
structure CCState where
  gprsLeft : Nat
  gprs : List (Option Item)
  fprsLeft : Nat
  fprs : List (Option Item)
  stack : List Item

/-- `CCState.__init__` register-file part (`flen` truthy means an FP file). -/
def initState (flenTruthy : Bool) : CCState :=
  { gprsLeft := 8
    gprs := List.replicate 8 none
    fprsLeft := if flenTruthy then 8 else 0
    fprs := List.replicate 8 none
    stack := [] }

/-- `skip_gpr`: raises when all GPRs are assigned. -/
def CCState.skipGpr (s : CCState) : Except Err CCState :=
  if s.gprsLeft = 0 then .error .invariant
  else .ok { s with gprsLeft := s.gprsLeft - 1 }

/-- `assign_to_gpr`: the object must fit in `xlen` and a register must
remain; fills slot `8 - gprs_left` (i.e. register `a(8-gprs_left)`). -/
def CCState.assignToGpr (xlen : Nat) (it : Item) (s : CCState) : Except Err CCState :=
  if xlen < it.size then .error .invariant
  else if s.gprsLeft = 0 then .error .invariant
  else .ok { s with gprs := s.gprs.set (8 - s.gprsLeft) (some it)
                    gprsLeft := s.gprsLeft - 1 }

/-- `assign_to_stack`: objects larger than `2*xlen` should have been passed
by reference. -/
def CCState.assignToStack (xlen : Nat) (it : Item) (s : CCState) : Except Err CCState :=
  if 2 * xlen < it.size then .error .invariant
  else .ok { s with stack := s.stack ++ [it] }

/-- `assign_to_gpr_or_stack`. -/
def CCState.assignToGprOrStack (xlen : Nat) (it : Item) (s : CCState) : Except Err CCState :=
  if xlen < it.size then .error .invariant
  else if 1 ≤ s.gprsLeft then s.assignToGpr xlen it
  else s.assignToStack xlen it

/-- `assign_to_fpr`: the object must fit in `flen` and an FP register must
remain; fills slot `8 - fprs_left`. -/
def CCState.assignToFpr (flen : Nat) (it : Item) (s : CCState) : Except Err CCState :=
  if flen < it.size then .error .invariant
  else if s.fprsLeft = 0 then .error .invariant
  else .ok { s with fprs := s.fprs.set (8 - s.fprsLeft) (some it)
                    fprsLeft := s.fprsLeft - 1 }

/-- `pass_by_reference`: synthesize a `Ptr(xlen)` named after the object and
route it through `assign_to_gpr_or_stack`. -/
def CCState.passByReference (xlen : Nat) (nm : PName) (s : CCState) : Except Err CCState :=
  s.assignToGprOrStack xlen (.refTo nm xlen)

/-- Loop body of `get_oldsp_rel_stack_locs`: `prev` is the previous stack
object, `off` its bit offset; each new offset is the previous offset plus the
previous size, aligned to `xlen` and then to the current object's
alignment, and is reported in bytes. -/
def stackLocsGo (xlen : Nat) (prev : Item) (off : Nat) : List Item → List Nat
  | [] => []
  | cur :: rest =>
    let off1 := alignTo (alignTo (off + prev.size) xlen) cur.alignment
    off1 / 8 :: stackLocsGo xlen cur off1 rest

/-- `get_oldsp_rel_stack_locs`: byte offsets of the stack objects relative to
the caller's stack pointer at call entry; the first object is at offset 0. -/
def getOldspRelStackLocs (xlen : Nat) : List Item → List Nat
  | [] => []
  | first :: rest => 0 :: stackLocsGo xlen first 0 rest

/-- `get_oldsp_rel_stack_loc(obj_idx)`: single-object variant, which instead
aligns the running offset once to `max(xlen, alignment)` per object;
`none` models the `ValueError` for an out-of-range index. -/
def getOldspRelStackLoc (xlen : Nat) (stack : List Item) (idx : Nat) : Option Nat :=
  match stack[idx]? with
  | none => none
  | some obj =>
    let s := (stack.take idx).foldl (fun off it => alignTo off (max xlen it.alignment) + it.size) 0
    some (alignTo s (max xlen obj.alignment) / 8)

/-- Specification-side recurrence for the caller-SP-relative stack offsets,
in bits: the first object is at bit offset 0; each subsequent object's offset
is the previous object's offset plus the previous object's size, rounded up
first to the register width and then to the object's own alignment. -/
def specStackOff (xlen : Nat) (stack : List Item) : Nat → Nat
  | 0 => 0
  | i + 1 =>
    alignTo (alignTo (specStackOff xlen stack i + (stack[i]?.elim 0 Item.size)) xlen)
      (stack[i + 1]?.elim 0 Item.alignment)

/-- A caller-supplied object in an argument list: a type descriptor or a
`VarArgs` wrapper.  `id` models Python object identity. -/
inductive Obj where
  | ty (id : Nat) (t : Ty)
  | varArgs (id : Nat) (args : List Obj)

def Obj.objId : Obj → Nat
  | .ty i _ => i
  | .varArgs i _ => i

def Obj.isVarArgs : Obj → Bool
  | .varArgs _ _ => true
  | _ => false

/-- `copy.copy(arg)`: a shallow copy is a new object identity with the same
fields. -/
def Obj.setId (i : Nat) : Obj → Obj
  | .ty _ t => .ty i t
  | .varArgs _ l => .varArgs i l

def Obj.toTy : Obj → Option Ty
  | .ty _ t => some t
  | .varArgs _ _ => none

/-- First phase of `RVMachine.call`: if the last element of the caller's list
is a `VarArgs` wrapper it is popped and its contents are appended, in place,
to the caller's list; `var_args_index` points past the end of the named
arguments.  Returns the caller's (possibly mutated) list and that index. -/
def unwrapVarArgs (inArgs : List Obj) : List Obj × Nat :=
  match inArgs.getLast? with
  | some (.varArgs _ va) => (inArgs.dropLast ++ va, inArgs.dropLast.length)
  | _ => (inArgs, inArgs.length)

/-- `RVMachine.verify_arg_list`, run on the copied list: duplicate object
identities (or the return type aliasing an argument) are a usage error, a
`VarArgs` return type or a `VarArgs` among the arguments is invalid. -/
def verifyArgList (inArgs : List Obj) (outArg : Option Obj) : Except Err Unit :=
  if (!decide (inArgs.map Obj.objId).Nodup
      || (match outArg with
          | some o => (inArgs.map Obj.objId).contains o.objId
          | none => false)) = true then
    .error .uniq
  else if (match outArg with | some o => o.isVarArgs | none => false) = true then
    .error .invalidVarArgs
  else if inArgs.any Obj.isVarArgs = true then
    .error .invalidVarArgs
  else .ok ()

/-- Promotion of a variadic argument: an `Int` smaller than `xlen` has its
size and alignment overwritten with `xlen`; an `FP` smaller than `xlen` (the
source compares against `xlen`, not `flen`) has them overwritten with `flen`,
which is `None` on a machine without an FP register file (`poison`). -/
def promoteVarArg (xlen : Nat) (flen : Option Nat) : Ty → Ty
  | .int s sg => if s < xlen then .int xlen sg else .int s sg
  | .fp s => if s < xlen then (match flen with | some f => .fp f | none => .poison) else .fp s
  | t => t

/-- Python truthiness of the `flen` parameter (`None` and `0` are falsy). -/
def flenTruthy : Option Nat → Bool
  | none => false
  | some f => f ≠ 0

/-- The struct-flattening step of the per-argument floating-point rule:
`flat_ty = Struct(*ty.flatten())`, taken when the argument is a struct small
enough to possibly occupy registers.  When the flattened struct has exactly
one member the source evaluates `flat_ty[0]`, which is a `TypeError`
(`Struct` defines no `__getitem__`). -/
def flattenArg (xlen f : Nat) (ty : Ty) : Except Err Ty :=
  if ty.isStruct = true ∧ ty.size ≤ max (2 * f) (2 * xlen) then
    let flatTy := mkStruct ty.flatten
    if flatTy.members.length = 1 then .error .crash
    else .ok flatTy
  else .ok ty

/-- Special cases of the floating-point calling convention for a non-variadic
argument (`flen` configured).  Returns `some state` when the argument was
placed (the loop `continue`s), `none` when the plain integer convention
applies. -/
def fpConvArg (xlen : Nat) (flen : Option Nat) (isVarArg : Bool) (nm : PName) (ty : Ty)
    (s : CCState) : Except Err (Option CCState) :=
  match flen with
  | none => .ok none
  | some f =>
    if f = 0 then .ok none
    else if isVarArg = true then .ok none
    else
      match flattenArg xlen f ty with
      | .error e => .error e
      | .ok flatTy =>
        if flatTy.isFP = true ∧ flatTy.size ≤ f ∧ 1 ≤ s.fprsLeft then
          match s.assignToFpr f (.whole nm ty) with
          | .error e => .error e
          | .ok s1 => .ok (some s1)
        else if flatTy.isStruct = true ∧ flatTy.size ≤ 2 * f then
          match flatTy.members.filter (fun m => !m.isPad) with
          | [ty1, ty2] =>
            if ty1.isFP = true ∧ ty2.isFP = true ∧ ty1.size ≤ f ∧ ty2.size ≤ f
                ∧ 2 ≤ s.fprsLeft then
              match s.assignToFpr f (Item.part nm 0 (ty1.size - 1)) with
              | .error e => .error e
              | .ok s1 =>
                match s1.assignToFpr f (Item.part nm (max ty1.size ty2.alignment)
                    (max ty1.size ty2.alignment + ty2.size - 1)) with
                | .error e => .error e
                | .ok s2 => .ok (some s2)
            else if ty1.isFP = true ∧ ty2.isInt = true ∧ ty1.size ≤ f ∧ ty2.size ≤ xlen
                ∧ 1 ≤ s.fprsLeft ∧ 1 ≤ s.gprsLeft then
              match s.assignToFpr f (Item.part nm 0 (ty1.size - 1)) with
              | .error e => .error e
              | .ok s1 =>
                match s1.assignToGpr xlen (Item.part nm (max ty1.size ty2.alignment)
                    (max ty1.size ty2.alignment + ty2.size - 1)) with
                | .error e => .error e
                | .ok s2 => .ok (some s2)
            else if ty1.isInt = true ∧ ty2.isFP = true ∧ ty1.size ≤ xlen ∧ ty2.size ≤ f
                ∧ 1 ≤ s.gprsLeft ∧ 1 ≤ s.fprsLeft then
              match s.assignToGpr xlen (Item.part nm 0 (ty1.size - 1)) with
              | .error e => .error e
              | .ok s1 =>
                match s1.assignToFpr f (Item.part nm (max ty1.size ty2.alignment)
                    (max ty1.size ty2.alignment + ty2.size - 1)) with
                | .error e => .error e
                | .ok s2 => .ok (some s2)
            else .ok none
          | _ => .ok none
        else .ok none

/-- The plain integer calling convention for one argument: a fit in one
register (or stack slot); a two-register value split into two slices, with an
aligned register pair enforced for suitably aligned varargs; anything larger
passed by reference.  A `poison` argument's first size read raises here. -/
def intConvArg (xlen : Nat) (isVarArg : Bool) (nm : PName) (ty : Ty) (s : CCState) :
    Except Err CCState :=
  if ty.isPoison = true then .error .crash
  else if ty.size ≤ xlen then s.assignToGprOrStack xlen (.whole nm ty)
  else if ty.size ≤ 2 * xlen then
    match (if isVarArg = true ∧ ty.alignment = 2 * xlen ∧ s.gprsLeft % 2 = 1 then
             s.skipGpr
           else .ok s) with
    | .error e => .error e
    | .ok s1 =>
      if 0 < s1.gprsLeft then
        match s1.assignToGprOrStack xlen (.part nm 0 (xlen - 1)) with
        | .error e => .error e
        | .ok s2 => s2.assignToGprOrStack xlen (.part nm xlen (2 * xlen - 1))
      else s1.assignToStack xlen (.whole nm ty)
  else s.passByReference xlen nm

/-- One iteration of the classification loop of `RVMachine.call`. -/
def argName (vai idx : Nat) : PName :=
  if idx < vai then PName.arg idx else PName.varg (idx - vai)

def classifyArg (xlen : Nat) (flen : Option Nat) (vai : Nat) (s : CCState)
    (p : Nat × Ty) : Except Err CCState :=
  match fpConvArg xlen flen (vai ≤ p.1) (argName vai p.1) p.2 s with
  | .error e => .error e
  | .ok (some s1) => .ok s1
  | .ok none => intConvArg xlen (vai ≤ p.1) (argName vai p.1) p.2 s

/-- The classification loop over the (indexed, promoted) argument list. -/
def processArgs (xlen : Nat) (flen : Option Nat) (vai : Nat) (s : CCState) :
    List (Nat × Ty) → Except Err CCState
  | [] => .ok s
  | p :: rest =>
    match classifyArg xlen flen vai s p with
    | .error e => .error e
    | .ok s1 => processArgs xlen flen vai s1 rest

/-- Return-type handling of `RVMachine.call`: a struct return no larger than
`2*flen` is checked against the two-field floating-point patterns and passed
by reference when exactly two padding-free leaves remain but match none of
them; otherwise (the `elif`) any return larger than `2*xlen` is passed by
reference.  The synthesized pointer is the call's first integer argument. -/
def classifyRetType (xlen : Nat) (flen : Option Nat) (outTy : Option Ty) (s : CCState) :
    Except Err CCState :=
  match outTy with
  | none => .ok s
  | some out =>
    if flenTruthy flen = true ∧ out.isStruct = true ∧ out.size ≤ 2 * (flen.getD 0) then
      match (mkStruct out.flatten).members.filter (fun m => !m.isPad) with
      | [ty1, ty2] =>
        if (ty1.isFP = true ∧ ty2.isFP = true ∧ ty1.size ≤ flen.getD 0 ∧ ty2.size ≤ flen.getD 0) ∨
           (ty1.isFP = true ∧ ty2.isInt = true ∧ ty1.size ≤ flen.getD 0 ∧ ty2.size ≤ xlen) ∨
           (ty1.isInt = true ∧ ty2.isFP = true ∧ ty1.size ≤ xlen ∧ ty2.size ≤ flen.getD 0) then
          .ok s
        else s.passByReference xlen .ret
      | _ => .ok s
    else if 2 * xlen < out.size then s.passByReference xlen .ret
    else .ok s

/-- Supported register widths (`RVMachine.__init__`). -/
def validWidth (w : Nat) : Bool := w == 32 || w == 64 || w == 128

/-- `in_args = [copy.copy(arg) for arg in in_args]`: fresh identities. -/
def copyArgs (args : List Obj) : List Obj :=
  args.enum.map (fun p => p.2.setId p.1)

/-- Zero-size arguments are filtered out, then the variadic suffix (by index,
computed before the filtering, as in the source) is promoted. -/
def promoteArgs (xlen : Nat) (flen : Option Nat) (vai : Nat) (args : List Obj) :
    List (Nat × Ty) :=
  (((copyArgs args).filterMap Obj.toTy).filter (fun t => 0 < t.size)).enum.map
    (fun p => (p.1, if vai ≤ p.1 then promoteVarArg xlen flen p.2 else p.2))

/-- The copied return type, as a type. -/
def outTyOf (args : List Obj) (outArg : Option Obj) : Option Ty :=
  (outArg.map (fun o => o.setId args.length)).bind Obj.toTy

def isArrayOpt : Option Ty → Bool
  | some t => t.isArray
  | none => false

/-- Body of `RVMachine.call` after the caller's list has been unwrapped:
copy every argument and the return type to fresh identities, validate,
drop zero-size arguments, promote the variadic suffix, reject by-value
arrays, classify the return type and then each argument in order. -/
def rvCallBody (xlen : Nat) (flen : Option Nat) (args : List Obj) (vai : Nat)
    (outArg : Option Obj) : Except Err CCState :=
  match verifyArgList (copyArgs args) (outArg.map (fun o => o.setId args.length)) with
  | .error e => .error e
  | .ok _ =>
    if isArrayOpt (outTyOf args outArg) = true
        ∨ (promoteArgs xlen flen vai args).any (fun p => p.2.isArray) = true then
      .error .byvalArray
    else
      match classifyRetType xlen flen (outTyOf args outArg) (initState (flenTruthy flen)) with
      | .error e => .error e
      | .ok s => processArgs xlen flen vai s (promoteArgs xlen flen vai args)

/-- `RVMachine(xlen, flen)` construction followed by `call(in_args, out_arg)`.
The second component is the contents of the caller's argument list after the
call: the in-place `VarArgs` unwrapping happens before any validation, so it
persists even when the call raises. -/
def rvCallFull (xlen : Nat) (flen : Option Nat) (inArgs : List Obj) (outArg : Option Obj) :
    Except Err CCState × List Obj :=
  if validWidth xlen = true ∧ (flenTruthy flen = true → validWidth (flen.getD 0) = true) then
    (rvCallBody xlen flen (unwrapVarArgs inArgs).1 (unwrapVarArgs inArgs).2 outArg,
     (unwrapVarArgs inArgs).1)
  else (.error .badWidth, inArgs)

/-- The classification result of `call`. -/
def rvCall (xlen : Nat) (flen : Option Nat) (inArgs : List Obj) (outArg : Option Obj) :
    Except Err CCState :=
  (rvCallFull xlen flen inArgs outArg).1

/-- Relabelling done by `RVMachine.ret`: the first entry of the name mapping
(the single argument, named `arg00`) is renamed to `ret`.  Slices display
through the mapping, so they are relabelled too; a synthesized pointer's
mapping entry is a string fixed at creation time and is unaffected. -/
def Item.markRet : Item → Item
  | .whole (.arg 0) t => .whole .ret t
  | .part (.arg 0) lo hi => .part .ret lo hi
  | it => it

def CCState.markRet (s : CCState) : CCState :=
  { s with gprs := s.gprs.map (Option.map Item.markRet)
           fprs := s.fprs.map (Option.map Item.markRet)
           stack := s.stack.map Item.markRet }

/-- `RVMachine.ret(ty)`: classify a call with the type as single argument;
if `a0` holds a synthesized pointer (its display name starts with `'&'`) the
return is by reference and `a0` is cleared; then the argument is relabelled
`ret`.  When the argument was dropped as zero-size the name mapping is empty
and `next(iter(...))` raises `StopIteration`. -/
def rvRet (xlen : Nat) (flen : Option Nat) (t : Ty) : Except Err CCState :=
  match rvCall xlen flen [Obj.ty 0 t] none with
  | .error e => .error e
  | .ok s =>
    let s1 := match s.gprs[0]? with
              | some (some (Item.refTo _ _)) => { s with gprs := s.gprs.set 0 none }
              | _ => s
    if t.size = 0 then .error .crash
    else .ok s1.markRet

/-! Sanity checks: the embedding reproduces classifications asserted by the
repository's own test suite (`test_rvcc.py`). -/

/-- With `xlen=32` and ten 8-bit arguments followed by a `UInt128`, the first
eight fill a0..a7, two go to the stack and the `UInt128` is passed by
reference with its pointer on the stack (`test_many_args`). -/
theorem sanity_many_args :
    (rvCall 32 none ((List.range 10).map (fun i => Obj.ty i (Ty.int 8 false))
        ++ [Obj.ty 10 (Ty.int 128 false)]) none).map
        (fun s => (s.stack, getOldspRelStackLocs 32 s.stack)) =
      .ok ([.whole (.arg 8) (.int 8 false), .whole (.arg 9) (.int 8 false),
            .refTo (.arg 10) 32], [0, 4, 8]) := rfl

/-- With `xlen=32, flen=64`, `Struct(Double, Int16)` is split into an FP slice
in fa0 and an integer slice in a0 (`test_fp_int_aggregates_rv32ifd`). -/
theorem sanity_fp_int_aggregate :
    (rvCall 32 (some 64) [Obj.ty 0 (mkStruct [Ty.fp 64, Ty.int 16 true])] none).map
        (fun s => (s.gprs[0]?, s.fprs[0]?)) =
      .ok (some (some (.part (.arg 0) 64 79)), some (some (.part (.arg 0) 0 63))) := rfl

/-! Claim C1.  A non-variadic struct argument whose flattened form is a single
floating-point leaf: the source reaches `flat_ty = flat_ty[0]` (rvcc.py:412),
and `Struct` defines no `__getitem__`, so every such argument raises
`TypeError` instead of being assigned to an FP register. -/

/-- Claim C1: evaluating the classification at the failing input
`RVMachine(xlen=64, flen=64).call([Struct(Float)])`: the flattened form of
`Struct(Float)` is the single FP leaf `Float`, an FP register is available,
yet the call crashes (the spec says it is assigned to `fa0`). -/
theorem c1_single_fp_leaf_struct_crashes :
    rvCall 64 (some 64) [Obj.ty 0 (mkStruct [Ty.fp 32])] none = .error .crash := rfl

/-! Claim C2.  The variadic promotion of a floating-point argument compares
its size against `xlen`, not against the FP register width `flen`
(rvcc.py:368), and unconditionally writes `flen` (which is `None` on a
machine without an FP register file) into the size. -/

/-- Claim C2, counterexample.  (a) On `RVMachine(xlen=32, flen=64)` the
variadic `Float` (size 32 < flen=64) is *not* widened: it is classified
whole, as a 32-bit FP value, into a0 — the claim required it to be widened to
exactly 64 bits before classification.  (b) On `RVMachine(xlen=64)` (no FP
register file) the variadic `Float` is *not* left unchanged: its size is
overwritten with `None` and the classification crashes. -/
theorem c2_counterexample :
    (rvCall 32 (some 64) [Obj.varArgs 0 [Obj.ty 1 (Ty.fp 32)]] none).map CCState.gprs =
      .ok [some (.whole (.varg 0) (.fp 32)), none, none, none, none, none, none, none]
    ∧ rvCall 64 none [Obj.varArgs 0 [Obj.ty 1 (Ty.fp 32)]] none = .error .crash :=
  ⟨rfl, rfl⟩

/-! Claim C3.  The struct-return rule only synthesizes a pointer when the
padding-free flattened form has *exactly two* leaves that fail the
float/int patterns; with any other leaf count the `if len(mems) == 2` block
falls through and the `elif` (rvcc.py:397) is skipped, so no pointer is
synthesized even for returns larger than `2*xlen`. -/

/-- Claim C3, counterexample.  `RVMachine(xlen=32, flen=64)`,
`call([], Struct(Int32))`: the struct return has size 32 ≤ 2*flen and its
padding-free flattened form is one leaf — not two matching leaves — yet no
pointer is synthesized: every integer register stays empty and the stack is
empty. -/
theorem c3_counterexample :
    (rvCall 32 (some 64) [] (some (Obj.ty 0 (mkStruct [Ty.int 32 true])))).map
        (fun s => (s.gprs, s.stack)) =
      .ok (List.replicate 8 none, []) := rfl

/-! Claim C4.  `RVMachine.call` copies every argument (`copy.copy`) *before*
calling `verify_arg_list` (rvcc.py:341-344), so the copies always have
distinct identities and the uniqueness check can never fire from `call`. -/

/-- Claim C4, counterexample.  Passing the identical `Int32` instance twice
does not raise the usage error: the call succeeds and the two copies land in
a0 and a1 as independent arguments. -/
theorem c4_counterexample :
    (rvCall 64 none [Obj.ty 0 (Ty.int 32 true), Obj.ty 0 (Ty.int 32 true)] none).map
        CCState.gprs =
      .ok [some (.whole (.arg 0) (.int 32 true)), some (.whole (.arg 1) (.int 32 true)),
           none, none, none, none, none, none] := rfl

/-! Claim C5.  On a machine with an FP register file, a floating-point scalar
return within the FP register width is placed in fa0, not in integer register
a0. -/

/-- Claim C5, counterexample.  `RVMachine(xlen=64, flen=64).ret(Double)`:
the returned `Double` occupies FP register fa0 and integer register a0 stays
empty, contradicting "integer register 0 only, no FP register". -/
theorem c5_counterexample :
    (rvRet 64 (some 64) (Ty.fp 64)).map (fun s => (s.gprs, s.fprs, s.stack)) =
      .ok (List.replicate 8 none,
           [some (.whole .ret (.fp 64)), none, none, none, none, none, none, none],
           []) := rfl

/-! Claim C8.  `Struct.__init__` with zero members sets `size = 0` and
`alignment = 8` (bits) — `8` is not a supported register width, so the
alignment of an empty struct never equals the machine's register width. -/

/-- Claim C8, counterexample: the zero-member struct's alignment is 8 bits,
which is not a valid register width (register widths are 32, 64 or 128). -/
theorem c8_counterexample :
    (mkStruct []).alignment = 8 ∧ validWidth (mkStruct []).alignment = false :=
  ⟨rfl, rfl⟩

/-- Claim C8, amended: a zero-member struct has size 0 and alignment 8 bits. -/
theorem c8_empty_struct : (mkStruct []).size = 0 ∧ (mkStruct []).alignment = 8 :=
  ⟨rfl, rfl⟩

/-! Claim C9.  The batch offset computation aligns to `xlen` and then to the
object's alignment; the single-object computation aligns once to their
maximum.  The two disagree when an alignment and `xlen` do not divide one
another. -/

/-- Claim C9, counterexample.  `RVMachine(xlen=32)`, eight `Int32` arguments
filling the registers, then `Int8` and `Int(24)` on the stack: the batch
computation places the second stack object at byte 6
(`align(align(8,32),24) = 48` bits) while the single-object computation
places it at byte 4 (`align(8, max(32,24)) = 32` bits). -/
theorem c9_counterexample :
    (rvCall 32 none ((List.range 8).map (fun i => Obj.ty i (Ty.int 32 true))
        ++ [Obj.ty 8 (Ty.int 8 true), Obj.ty 9 (Ty.int 24 true)]) none).map
        (fun s => ((getOldspRelStackLocs 32 s.stack)[1]?, getOldspRelStackLoc 32 s.stack 1)) =
      .ok (some 6, some 4)
    ∧ (some 6 : Option Nat) ≠ some 4 :=
  ⟨rfl, by decide⟩

/-! Arithmetic facts about `alignTo`. -/

theorem alignTo_zero_left (a : Nat) : alignTo 0 a = 0 := by
  rcases a with _ | a
  · rfl
  · simp only [alignTo, Nat.zero_add, Nat.succ_sub_one]
    rw [Nat.div_eq_of_lt (Nat.lt_succ_self a), Nat.zero_mul]

theorem dvd_alignTo (x a : Nat) : a ∣ alignTo x a :=
  ⟨(x + a - 1) / a, Nat.mul_comm _ _⟩

theorem le_alignTo (x : Nat) {a : Nat} (ha : 0 < a) : x ≤ alignTo x a := by
  have h := Nat.lt_div_mul_add (a := x + a - 1) ha
  unfold alignTo
  omega

theorem alignTo_le {x a m : Nat} (ha : 0 < a) (hd : a ∣ m) (hx : x ≤ m) :
    alignTo x a ≤ m := by
  obtain ⟨k, rfl⟩ := hd
  unfold alignTo
  have hdiv : (x + a - 1) / a ≤ k := by
    rw [Nat.div_le_iff_le_mul_add_pred ha]
    omega
  calc (x + a - 1) / a * a ≤ k * a := Nat.mul_le_mul_right a hdiv
  _ = a * k := Nat.mul_comm k a

theorem alignTo_eq_of_dvd {x a : Nat} (ha : 0 < a) (hd : a ∣ x) : alignTo x a = x :=
  Nat.le_antisymm (alignTo_le ha hd (Nat.le_refl x)) (le_alignTo x ha)

theorem alignTo_mono {x y a : Nat} (ha : 0 < a) (h : x ≤ y) :
    alignTo x a ≤ alignTo y a :=
  alignTo_le ha (dvd_alignTo y a) (h.trans (le_alignTo y ha))

theorem alignTo_alignTo_of_dvd {x a b : Nat} (ha : 0 < a) (hb : 0 < b) (hab : a ∣ b) :
    alignTo (alignTo x a) b = alignTo x b := by
  apply Nat.le_antisymm
  · exact alignTo_le hb (dvd_alignTo x b)
      (alignTo_le ha (hab.trans (dvd_alignTo x b)) (le_alignTo x hb))
  · exact alignTo_mono hb (le_alignTo x ha)

/-- Composing the two alignments of the batch offset computation equals the
single alignment to the maximum, provided the two alignments divide one
another (e.g. both are powers of two). -/
theorem alignTo_alignTo_comparable {x a b : Nat} (ha : 0 < a) (hb : 0 < b)
    (h : a ∣ b ∨ b ∣ a) : alignTo (alignTo x a) b = alignTo x (max a b) := by
  rcases h with h | h
  · rw [Nat.max_eq_right (Nat.le_of_dvd hb h)]
    exact alignTo_alignTo_of_dvd ha hb h
  · rw [Nat.max_eq_left (Nat.le_of_dvd ha h)]
    exact alignTo_eq_of_dvd hb (h.trans (dvd_alignTo x a))

theorem stackLocsGo_spec (xlen : Nat) : ∀ (rest : List Item) (k : Nat) (L : List Item)
    (prev : Item), L[k]? = some prev → L.drop (k + 1) = rest →
    ∀ j, j < rest.length →
      (stackLocsGo xlen prev (specStackOff xlen L k) rest)[j]? =
        some (specStackOff xlen L (k + 1 + j) / 8)
  | [], _, _, _, _, _, j, hj => absurd hj (by simp)
  | cur :: rest', k, L, prev, hk, hdrop, j, hj => by
    have hcur : L[k + 1]? = some cur := by
      have := List.getElem?_drop L (k + 1) 0
      rw [hdrop] at this
      simpa using this.symm
    have hoff : alignTo (alignTo (specStackOff xlen L k + prev.size) xlen) cur.alignment
        = specStackOff xlen L (k + 1) := by
      simp [specStackOff, hk, hcur]
    rcases j with _ | j
    · simp [stackLocsGo, hoff]
    · have hdrop' : L.drop (k + 2) = rest' := by
        have : L.drop (k + 1 + 1) = (L.drop (k + 1)).drop 1 := by
          rw [List.drop_drop]
        rw [hdrop] at this
        simpa using this
      have ih := stackLocsGo_spec xlen rest' (k + 1) L cur hcur hdrop' j
        (by simpa using Nat.lt_of_succ_lt_succ hj)
      simp only [stackLocsGo, hoff, List.getElem?_cons_succ]
      rw [show k + 1 + (j + 1) = k + 1 + 1 + j from by omega]
      exact ih

theorem getOldspRelStackLocs_eq_spec (xlen : Nat) (stack : List Item) (i : Nat)
    (hi : i < stack.length) :
    (getOldspRelStackLocs xlen stack)[i]? = some (specStackOff xlen stack i / 8) := by
  rcases stack with _ | ⟨first, rest⟩
  · simp at hi
  · rcases i with _ | j
    · simp [getOldspRelStackLocs, specStackOff]
    · have h0 : (first :: rest)[0]? = some first := by simp
      have hdrop : (first :: rest).drop 1 = rest := rfl
      have hgo := stackLocsGo_spec xlen rest 0 (first :: rest) first h0 hdrop j
        (by simpa using Nat.lt_of_succ_lt_succ hi)
      rw [show specStackOff xlen (first :: rest) 0 = 0 from rfl] at hgo
      simp only [getOldspRelStackLocs, List.getElem?_cons_succ]
      rw [show j + 1 = 0 + 1 + j from by omega]
      exact hgo

/-- Claim C7: in a finished classification state, the byte offsets reported
by `get_oldsp_rel_stack_locs` satisfy the specified recurrence: offset 0 for
the first stack object, and each subsequent object at the previous object's
bit offset plus the previous object's size, rounded up first to the register
width and then to the object's own alignment, expressed in bytes
(`specStackOff` is that recurrence, transcribed from the specification). -/
theorem c7_stack_offsets (xlen : Nat) (stack : List Item) (i : Nat)
    (hi : i < stack.length) :
    (getOldspRelStackLocs xlen stack)[i]? = some (specStackOff xlen stack i / 8) :=
  getOldspRelStackLocs_eq_spec xlen stack i hi

/-- Claim C7, witness: a two-object stack at `xlen = 32`. -/
theorem c7_stack_offsets_witness :
    (getOldspRelStackLocs 32 [.whole (.arg 0) (.int 8 true), .whole (.arg 1) (.int 32 true)])[1]?
      = some (specStackOff 32 [.whole (.arg 0) (.int 8 true), .whole (.arg 1) (.int 32 true)] 1 / 8) :=
  c7_stack_offsets 32 [.whole (.arg 0) (.int 8 true), .whole (.arg 1) (.int 32 true)] 1
    (by decide)

/-- The running offset of `get_oldsp_rel_stack_loc`, aligned for object `i`,
equals the batch recurrence, when every alignment is comparable to `xlen`
under divisibility. -/
theorem singleLoc_fold_eq_spec (xlen : Nat) (stack : List Item) (hx : 0 < xlen)
    (ha : ∀ it ∈ stack, 0 < it.alignment ∧ (it.alignment ∣ xlen ∨ xlen ∣ it.alignment)) :
    ∀ i obj, stack[i]? = some obj →
      alignTo ((stack.take i).foldl (fun off it => alignTo off (max xlen it.alignment) + it.size) 0)
          (max xlen obj.alignment)
        = specStackOff xlen stack i := by
  intro i
  induction i with
  | zero =>
    intro obj _
    simp [specStackOff, alignTo_zero_left]
  | succ i ih =>
    intro obj hobj
    have hi1 : i + 1 < stack.length := (List.getElem?_eq_some.mp hobj).1
    have hi : i < stack.length := Nat.lt_of_succ_lt hi1
    obtain ⟨prev, hprev⟩ : ∃ p, stack[i]? = some p :=
      ⟨stack[i], List.getElem?_eq_getElem hi⟩
    have hfold : (stack.take (i + 1)).foldl
        (fun off it => alignTo off (max xlen it.alignment) + it.size) 0
        = specStackOff xlen stack i + prev.size := by
      rw [List.take_succ, hprev]
      rw [List.foldl_append]
      simp only [Option.toList_some, List.foldl_cons, List.foldl_nil]
      rw [ih prev hprev]
    rw [hfold]
    have hamem := ha obj (List.getElem?_mem hobj)
    have hcomp := alignTo_alignTo_comparable
      (x := specStackOff xlen stack i + prev.size) hx hamem.1 hamem.2.symm
    rw [← hcomp]
    simp [specStackOff, hprev, hobj]

/-- Claim C9, amended: the batch computation `get_oldsp_rel_stack_locs` and
the single-object computation `get_oldsp_rel_stack_loc` agree at every valid
stack index, provided every stack object's alignment is positive and
divisibility-comparable with the register width (each divides the other in
one direction — true in particular of the power-of-two alignments of the
modelled C types); in general the two computations differ. -/
theorem c9_amended (xlen : Nat) (stack : List Item) (hx : 0 < xlen)
    (ha : ∀ it ∈ stack, 0 < it.alignment ∧ (it.alignment ∣ xlen ∨ xlen ∣ it.alignment))
    (i : Nat) (hi : i < stack.length) :
    (getOldspRelStackLocs xlen stack)[i]? = getOldspRelStackLoc xlen stack i := by
  rw [getOldspRelStackLocs_eq_spec xlen stack i hi]
  have hobj : stack[i]? = some stack[i] := List.getElem?_eq_getElem hi
  have hloc : getOldspRelStackLoc xlen stack i
      = some (alignTo ((stack.take i).foldl
            (fun off it => alignTo off (max xlen it.alignment) + it.size) 0)
          (max xlen stack[i].alignment) / 8) := by
    simp [getOldspRelStackLoc, hobj]
  rw [hloc, singleLoc_fold_eq_spec xlen stack hx ha i stack[i] hobj]

/-- Claim C9 (amended), witness: a concrete two-object stack with power-of-two
alignments at `xlen = 32`, where both computations give byte offset 4 for the
second object. -/
theorem c9_amended_witness :
    (getOldspRelStackLocs 32 [.whole (.arg 0) (.int 8 true), .whole (.arg 1) (.int 64 true)])[1]?
      = getOldspRelStackLoc 32 [.whole (.arg 0) (.int 8 true), .whole (.arg 1) (.int 64 true)] 1
    ∧ getOldspRelStackLoc 32 [.whole (.arg 0) (.int 8 true), .whole (.arg 1) (.int 64 true)] 1
      = some 8 :=
  ⟨c9_amended 32 [.whole (.arg 0) (.int 8 true), .whole (.arg 1) (.int 64 true)]
    (by decide) (by decide) 1 (by decide), by decide⟩

/-- Claim C2, amended: variadic promotion widens an integer smaller than the
register width `W` to exactly `W`; a floating-point variadic smaller than `W`
(the comparison threshold is `W`, not the FP register width) is widened to
exactly the FP register width when an FP register file is configured, and has
its size destroyed (subsequent classification crashes) when none is; an
integer or floating-point variadic of size at least `W` is left unchanged.
`rvCallBody` applies `promoteVarArg` to exactly the arguments at or past the
variadic boundary. -/
theorem c2_promotion_amended (xlen : Nat) (flen : Option Nat) (s : Nat) (sg : Bool) :
    (s < xlen → promoteVarArg xlen flen (.int s sg) = .int xlen sg)
    ∧ (¬ s < xlen → promoteVarArg xlen flen (.int s sg) = .int s sg)
    ∧ (∀ f, s < xlen → flen = some f → promoteVarArg xlen flen (.fp s) = .fp f)
    ∧ (¬ s < xlen → promoteVarArg xlen flen (.fp s) = .fp s)
    ∧ (s < xlen → flen = none → promoteVarArg xlen flen (.fp s) = .poison) := by
  refine ⟨?_, ?_, ?_, ?_, ?_⟩
  · intro h; simp [promoteVarArg, h]
  · intro h; simp [promoteVarArg, h]
  · intro f h hf; subst hf; simp [promoteVarArg, h]
  · intro h; simp [promoteVarArg, h]
  · intro h hf; subst hf; simp [promoteVarArg, h]

/-- Claim C2 (amended), witness: a variadic `Int32` is widened to 64 bits at
`xlen=64`; a variadic `Float` is not widened at `xlen=32, flen=64`
(32 is not `< xlen`); a variadic `Float` at `xlen=64, flen=64` becomes
`FP64`; at `xlen=64` without an FP file its size is destroyed. -/
theorem c2_promotion_amended_witness :
    promoteVarArg 64 (some 64) (.int 32 true) = .int 64 true
    ∧ promoteVarArg 32 (some 64) (.fp 32) = .fp 32
    ∧ promoteVarArg 64 (some 64) (.fp 32) = .fp 64
    ∧ promoteVarArg 64 none (.fp 32) = .poison :=
  ⟨(c2_promotion_amended 64 (some 64) 32 true).1 (by decide),
   (c2_promotion_amended 32 (some 64) 32 true).2.2.2.1 (by decide),
   (c2_promotion_amended 64 (some 64) 32 true).2.2.1 64 (by decide) rfl,
   (c2_promotion_amended 64 none 32 true).2.2.2.2 (by decide) rfl⟩

/-- Claim C10: `call` never mutates a caller-supplied type descriptor (the
classified objects are shallow copies, visible in `rvCallBody`), but when the
last element of the caller's argument list is a `VarArgs` wrapper the
caller's list itself is mutated in place — the wrapper is removed and its
wrapped arguments (the original objects, unmodified) are appended — and this
happens before validation, so the second component of `rvCallFull` (the
caller's list after the call) equals the unwrapped list regardless of whether
classification succeeded. -/
theorem c10_frame (xlen : Nat) (flen : Option Nat) (inArgs : List Obj) (outArg : Option Obj)
    (hx : validWidth xlen = true)
    (hf : flenTruthy flen = true → validWidth (flen.getD 0) = true) :
    (rvCallFull xlen flen inArgs outArg).2 = (unwrapVarArgs inArgs).1
    ∧ (∀ i w rest, inArgs = rest ++ [Obj.varArgs i w] → (unwrapVarArgs inArgs).1 = rest ++ w)
    ∧ ((∀ o, inArgs.getLast? = some o → o.isVarArgs = false) →
        (unwrapVarArgs inArgs).1 = inArgs) := by
  refine ⟨?_, ?_, ?_⟩
  · rw [rvCallFull, if_pos ⟨hx, hf⟩]
  · rintro i w rest rfl
    rw [unwrapVarArgs, List.getLast?_concat]
    simp [List.dropLast_concat]
  · intro h
    rw [unwrapVarArgs]
    cases hl : inArgs.getLast? with
    | none => rfl
    | some o =>
      cases o with
      | ty i t => rfl
      | varArgs i w => exact absurd (h _ hl) (by simp [Obj.isVarArgs])

/-- Claim C10, witness.  A wrapped variadic `Int8`: the caller's list after
the call holds the original unwidened `Int8` object while the classified copy
was promoted to 64 bits; and a call that fails validation (nested `VarArgs`)
still leaves the caller's list unwrapped. -/
theorem c10_frame_witness :
    (rvCallFull 64 none [Obj.varArgs 5 [Obj.ty 6 (Ty.int 8 true)]] none).2
      = [Obj.ty 6 (Ty.int 8 true)]
    ∧ (rvCall 64 none [Obj.varArgs 5 [Obj.ty 6 (Ty.int 8 true)]] none).map CCState.gprs
      = .ok [some (.whole (.varg 0) (.int 64 true)), none, none, none, none, none, none, none]
    ∧ (rvCallFull 32 none [Obj.ty 3 (Ty.int 32 true), Obj.varArgs 4 [Obj.varArgs 5 []]] none).1
      = .error .invalidVarArgs
    ∧ (rvCallFull 32 none [Obj.ty 3 (Ty.int 32 true), Obj.varArgs 4 [Obj.varArgs 5 []]] none).2
      = [Obj.ty 3 (Ty.int 32 true), Obj.varArgs 5 []] := by
  refine ⟨?_, rfl, rfl, rfl⟩
  have h := c10_frame 64 none [Obj.varArgs 5 [Obj.ty 6 (Ty.int 8 true)]] none
    (by decide) (by intro hc; exact absurd hc (by decide))
  rw [h.1]
  exact h.2.1 5 [Obj.ty 6 (Ty.int 8 true)] [] rfl

/-! Machinery for claims C4 (amended) and C6: the placement operations never
fail when called under the guards the classification algorithm checks, so the
only errors the per-argument loop can produce are crashes, and the only
errors `call` can produce are width, varargs, by-value-array and crash
errors. -/

theorem skipGpr_ok {s : CCState} (h : s.gprsLeft ≠ 0) :
    s.skipGpr = .ok { s with gprsLeft := s.gprsLeft - 1 } := by
  unfold CCState.skipGpr
  rw [if_neg h]

theorem assignToGpr_ok (xlen : Nat) (it : Item) {s : CCState}
    (h1 : it.size ≤ xlen) (h2 : s.gprsLeft ≠ 0) :
    s.assignToGpr xlen it = .ok { s with gprs := s.gprs.set (8 - s.gprsLeft) (some it)
                                         gprsLeft := s.gprsLeft - 1 } := by
  unfold CCState.assignToGpr
  rw [if_neg (Nat.not_lt.mpr h1), if_neg h2]

theorem assignToFpr_ok (flen : Nat) (it : Item) {s : CCState}
    (h1 : it.size ≤ flen) (h2 : s.fprsLeft ≠ 0) :
    s.assignToFpr flen it = .ok { s with fprs := s.fprs.set (8 - s.fprsLeft) (some it)
                                         fprsLeft := s.fprsLeft - 1 } := by
  unfold CCState.assignToFpr
  rw [if_neg (Nat.not_lt.mpr h1), if_neg h2]

theorem assignToStack_ok (xlen : Nat) (it : Item) {s : CCState}
    (h : it.size ≤ 2 * xlen) :
    s.assignToStack xlen it = .ok { s with stack := s.stack ++ [it] } := by
  unfold CCState.assignToStack
  rw [if_neg (Nat.not_lt.mpr h)]

theorem assignToGprOrStack_ok (xlen : Nat) (it : Item) (s : CCState)
    (h : it.size ≤ xlen) :
    ∃ s', s.assignToGprOrStack xlen it = .ok s' := by
  unfold CCState.assignToGprOrStack
  rw [if_neg (Nat.not_lt.mpr h)]
  by_cases hg : 1 ≤ s.gprsLeft
  · rw [if_pos hg, assignToGpr_ok xlen it h (by omega)]
    exact ⟨_, rfl⟩
  · rw [if_neg hg, assignToStack_ok xlen it (h.trans (by omega))]
    exact ⟨_, rfl⟩

theorem passByReference_ok (xlen : Nat) (nm : PName) (s : CCState) :
    ∃ s', s.passByReference xlen nm = .ok s' :=
  assignToGprOrStack_ok xlen (.refTo nm xlen) s (by simp [Item.size])

theorem mkStruct_isStruct (l : List Ty) : (mkStruct l).isStruct = true := by
  cases l <;> rfl

theorem flattenArg_err {xlen f : Nat} {ty : Ty} {e : Err}
    (h : flattenArg xlen f ty = .error e) : e = .crash := by
  unfold flattenArg at h
  simp only [] at h
  split at h
  · split at h
    · cases h
      rfl
    · cases h
  · cases h

theorem flattenArg_ok_cases {xlen f : Nat} {ty flatTy : Ty}
    (h : flattenArg xlen f ty = .ok flatTy) : flatTy = ty ∨ flatTy.isStruct = true := by
  unfold flattenArg at h
  simp only [] at h
  split at h
  · split at h
    · exact absurd h (by simp)
    · cases h
      exact Or.inr (mkStruct_isStruct _)
  · cases h
    exact Or.inl rfl

theorem isFP_of_isStruct {t : Ty} (h : t.isStruct = true) : t.isFP = false := by
  cases t <;> simp_all [Ty.isStruct, Ty.isFP]

theorem fpConvArg_err {xlen : Nat} {flen : Option Nat} {v : Bool} {nm : PName} {ty : Ty}
    {s : CCState} {e : Err} (hx : 0 < xlen)
    (h : fpConvArg xlen flen v nm ty s = .error e) : e = .crash := by
  unfold fpConvArg at h
  split at h
  · exact Except.noConfusion h
  · rename_i f
    split at h
    · exact Except.noConfusion h
    · rename_i hf0
      have hf1 : 1 ≤ f := by omega
      split at h
      · exact Except.noConfusion h
      · split at h
        · rename_i e1 herr
          cases h
          exact flattenArg_err herr
        · rename_i flatTy hok
          split at h
          · rename_i hguard
            have hft : flatTy = ty := by
              rcases flattenArg_ok_cases hok with h1 | h1
              · exact h1
              · rw [isFP_of_isStruct h1] at hguard
                exact absurd hguard.1 (by simp)
            split at h
            · rename_i e1 heq
              rw [assignToFpr_ok f (Item.whole nm ty)
                (by simp only [Item.size]; rw [← hft]; exact hguard.2.1)
                (by omega)] at heq
              exact Except.noConfusion heq
            · exact Except.noConfusion h
          · split at h
            · split at h
              · rename_i ty1 ty2 hmem
                split at h
                · rename_i hguard
                  obtain ⟨hfp1, hfp2, hsz1, hsz2, hn⟩ := hguard
                  split at h
                  · rename_i e1 heq
                    rw [assignToFpr_ok f (Item.part nm 0 (ty1.size - 1))
                      (by simp only [Item.size]; omega) (by omega)] at heq
                    exact Except.noConfusion heq
                  · rename_i s1 heq
                    rw [assignToFpr_ok f (Item.part nm 0 (ty1.size - 1))
                      (by simp only [Item.size]; omega) (by omega)] at heq
                    cases heq
                    split at h
                    · rename_i e2 heq2
                      rw [assignToFpr_ok f
                        (Item.part nm (max ty1.size ty2.alignment)
                          (max ty1.size ty2.alignment + ty2.size - 1))
                        (by simp only [Item.size]; omega)
                        (by show s.fprsLeft - 1 ≠ 0; omega)] at heq2
                      exact Except.noConfusion heq2
                    · exact Except.noConfusion h
                · split at h
                  · rename_i hguard
                    obtain ⟨hfp1, hint2, hsz1, hsz2, hn1, hn2⟩ := hguard
                    split at h
                    · rename_i e1 heq
                      rw [assignToFpr_ok f (Item.part nm 0 (ty1.size - 1))
                        (by simp only [Item.size]; omega) (by omega)] at heq
                      exact Except.noConfusion heq
                    · rename_i s1 heq
                      rw [assignToFpr_ok f (Item.part nm 0 (ty1.size - 1))
                        (by simp only [Item.size]; omega) (by omega)] at heq
                      cases heq
                      split at h
                      · rename_i e2 heq2
                        rw [assignToGpr_ok xlen
                          (Item.part nm (max ty1.size ty2.alignment)
                            (max ty1.size ty2.alignment + ty2.size - 1))
                          (by simp only [Item.size]; omega)
                          (by show s.gprsLeft ≠ 0; omega)] at heq2
                        exact Except.noConfusion heq2
                      · exact Except.noConfusion h
                  · split at h
                    · rename_i hguard
                      obtain ⟨hint1, hfp2, hsz1, hsz2, hn1, hn2⟩ := hguard
                      split at h
                      · rename_i e1 heq
                        rw [assignToGpr_ok xlen (Item.part nm 0 (ty1.size - 1))
                          (by simp only [Item.size]; omega) (by omega)] at heq
                        exact Except.noConfusion heq
                      · rename_i s1 heq
                        rw [assignToGpr_ok xlen (Item.part nm 0 (ty1.size - 1))
                          (by simp only [Item.size]; omega) (by omega)] at heq
                        cases heq
                        split at h
                        · rename_i e2 heq2
                          rw [assignToFpr_ok f
                            (Item.part nm (max ty1.size ty2.alignment)
                              (max ty1.size ty2.alignment + ty2.size - 1))
                            (by simp only [Item.size]; omega)
                            (by show s.fprsLeft ≠ 0; omega)] at heq2
                          exact Except.noConfusion heq2
                        · exact Except.noConfusion h
                    · exact Except.noConfusion h
              · exact Except.noConfusion h
            · exact Except.noConfusion h

theorem intConvArg_err {xlen : Nat} {v : Bool} {nm : PName} {ty : Ty} {s : CCState} {e : Err}
    (h : intConvArg xlen v nm ty s = .error e) : e = .crash := by
  unfold intConvArg at h
  split at h
  · cases h
    rfl
  · split at h
    · rename_i hle
      obtain ⟨s', hs'⟩ := assignToGprOrStack_ok xlen (.whole nm ty) s
        (by simpa [Item.size] using hle)
      rw [hs'] at h
      exact Except.noConfusion h
    · split at h
      · rename_i hgt hle2
        have hx1 : 0 < xlen := by
          simp only [not_le] at hgt
          simp only [Ty.size] at hgt hle2
          omega
        split at h
        · rename_i e1 heq
          split at heq
          · rename_i hc
            rw [skipGpr_ok (by omega)] at heq
            exact Except.noConfusion heq
          · exact Except.noConfusion heq
        · rename_i s1 heq
          split at h
          · split at h
            · rename_i e2 heq2
              obtain ⟨s2, hs2⟩ := assignToGprOrStack_ok xlen
                (.part nm 0 (xlen - 1)) s1 (by simp only [Item.size]; omega)
              rw [hs2] at heq2
              exact Except.noConfusion heq2
            · rename_i s2 heq2
              obtain ⟨s3, hs3⟩ := assignToGprOrStack_ok xlen
                (.part nm xlen (2 * xlen - 1)) s2 (by simp only [Item.size]; omega)
              rw [hs3] at h
              exact Except.noConfusion h
          · rw [assignToStack_ok xlen (.whole nm ty) (by simpa [Item.size] using hle2)] at h
            exact Except.noConfusion h
      · obtain ⟨s', hs'⟩ := passByReference_ok xlen nm s
        rw [hs'] at h
        exact Except.noConfusion h

theorem classifyArg_err {xlen : Nat} {flen : Option Nat} {vai : Nat} {s : CCState}
    {p : Nat × Ty} {e : Err} (hx : 0 < xlen)
    (h : classifyArg xlen flen vai s p = .error e) : e = .crash := by
  unfold classifyArg at h
  split at h
  · rename_i herr
    cases h
    exact fpConvArg_err hx herr
  · cases h
  · exact intConvArg_err h

theorem processArgs_err {xlen : Nat} {flen : Option Nat} {vai : Nat} (hx : 0 < xlen) :
    ∀ (l : List (Nat × Ty)) (s : CCState) (e : Err),
      processArgs xlen flen vai s l = .error e → e = .crash
  | [], _, _, h => by cases h
  | p :: rest, s, e, h => by
    unfold processArgs at h
    split at h
    · rename_i herr
      cases h
      exact classifyArg_err hx herr
    · exact processArgs_err hx rest _ e h

theorem classifyRetType_ok (xlen : Nat) (flen : Option Nat) (outTy : Option Ty)
    (s : CCState) : ∃ s', classifyRetType xlen flen outTy s = .ok s' := by
  unfold classifyRetType
  split
  · exact ⟨_, rfl⟩
  · split
    · split
      · split
        · exact ⟨_, rfl⟩
        · exact passByReference_ok _ _ _
      · exact ⟨_, rfl⟩
    · split
      · exact passByReference_ok _ _ _
      · exact ⟨_, rfl⟩

theorem copies_ids (args : List Obj) :
    (copyArgs args).map Obj.objId = List.range args.length := by
  unfold copyArgs
  rw [List.map_map]
  have : (Obj.objId ∘ fun p : Nat × Obj => p.2.setId p.1) = Prod.fst := by
    funext p
    rcases p with ⟨i, o⟩
    cases o <;> rfl
  rw [this, List.enum_map_fst]

theorem verify_copies_not_uniq (args : List Obj) (outArg : Option Obj) (e : Err)
    (h : verifyArgList (copyArgs args)
      (outArg.map (fun o => o.setId args.length)) = .error e) : e = .invalidVarArgs := by
  unfold verifyArgList at h
  rw [copies_ids args] at h
  have hnodup : decide (List.range args.length).Nodup = true :=
    decide_eq_true (List.nodup_range args.length)
  have hout : (match outArg.map (fun o => o.setId args.length) with
      | some o => (List.range args.length).contains o.objId
      | none => false) = false := by
    cases outArg with
    | none => rfl
    | some o =>
      rw [Bool.eq_false_iff]
      intro hc
      have hc' : (List.range args.length).contains ((Obj.setId args.length o).objId) = true := hc
      have hmem := List.elem_iff.mp hc'
      rw [List.mem_range] at hmem
      have hid : (Obj.setId args.length o).objId = args.length := by cases o <;> rfl
      omega
  rw [hnodup, hout] at h
  split at h
  · rename_i hc
    simp at hc
  · split at h
    · cases h
      rfl
    · split at h
      · cases h
        rfl
      · exact Except.noConfusion h

theorem validWidth_pos {w : Nat} (h : validWidth w = true) : 0 < w := by
  unfold validWidth at h
  simp only [Bool.or_eq_true, beq_iff_eq] at h
  omega

theorem rvCallBody_err {xlen : Nat} {flen : Option Nat} {args : List Obj} {vai : Nat}
    {outArg : Option Obj} {e : Err} (hx : 0 < xlen)
    (h : rvCallBody xlen flen args vai outArg = .error e) :
    e = .invalidVarArgs ∨ e = .byvalArray ∨ e = .crash := by
  unfold rvCallBody at h
  split at h
  · rename_i herr
    cases h
    exact Or.inl (verify_copies_not_uniq args outArg _ herr)
  · split at h
    · cases h
      exact Or.inr (Or.inl rfl)
    · split at h
      · rename_i herr
        obtain ⟨s', hs'⟩ := classifyRetType_ok xlen flen (outTyOf args outArg)
          (initState (flenTruthy flen))
        rw [herr] at hs'
        cases hs'
      · exact Or.inr (Or.inr (processArgs_err hx _ _ _ h))

theorem rvCall_err {xlen : Nat} {flen : Option Nat} {inArgs : List Obj}
    {outArg : Option Obj} {e : Err}
    (h : rvCall xlen flen inArgs outArg = .error e) :
    e = .badWidth ∨ e = .invalidVarArgs ∨ e = .byvalArray ∨ e = .crash := by
  unfold rvCall rvCallFull at h
  split at h
  · rename_i hw
    exact Or.inr (rvCallBody_err (validWidth_pos hw.1) h)
  · cases h
    exact Or.inl rfl

/-- Claim C4, amended: `classifyCall` never raises the uniqueness usage
error.  Every argument and the return type is shallow-copied to a fresh
object identity *before* `verify_arg_list` runs, so the uniqueness check
compares only the always-distinct copies: caller-supplied duplicate
identities are silently accepted as independent copies. -/
theorem c4_no_uniqueness_error (xlen : Nat) (flen : Option Nat) (inArgs : List Obj)
    (outArg : Option Obj) : rvCall xlen flen inArgs outArg ≠ .error .uniq := by
  intro h
  rcases rvCall_err h with h' | h' | h' | h' <;> cases h'

/-- Claim C4 (amended), witness: a concrete call never yields the uniqueness
error. -/
theorem c4_no_uniqueness_error_witness :
    rvCall 64 none [Obj.ty 0 (Ty.int 32 true)] none ≠ .error .uniq :=
  c4_no_uniqueness_error 64 none [Obj.ty 0 (Ty.int 32 true)] none

/-- Claim C6: for every input (in particular every validated one), the
internal invariant checks of the placement operations are unreachable:
`call` never surfaces the `invariant` error — `assign_to_gpr`/`assign_to_fpr`
are never invoked with an oversized object or an exhausted register file,
`skip_gpr` is never invoked with no registers left, and `assign_to_stack`
is never invoked with an object larger than `2*xlen`. -/
theorem c6_no_invariant_error (xlen : Nat) (flen : Option Nat) (inArgs : List Obj)
    (outArg : Option Obj) : rvCall xlen flen inArgs outArg ≠ .error .invariant := by
  intro h
  rcases rvCall_err h with h' | h' | h' | h' <;> cases h'

/-- Claim C6, witness: a concrete validated input never yields the internal
invariant error. -/
theorem c6_no_invariant_error_witness :
    rvCall 32 (some 64) [Obj.ty 0 (Ty.fp 64)] none ≠ .error .invariant :=
  c6_no_invariant_error 32 (some 64) [Obj.ty 0 (Ty.fp 64)] none

/-! Machinery for claim C3 (amended): once the synthesized return pointer
occupies integer register slot 0, no later placement operation overwrites it
(`assign_to_gpr` writes slot `8 - gprs_left ≥ 1` once a register has been
consumed, and `gprs_left` never increases). -/

theorem skipGpr_a0 {s s' : CCState} (h : s.skipGpr = .ok s') (hg : s.gprsLeft ≤ 7) :
    s'.gprs[0]? = s.gprs[0]? ∧ s'.gprsLeft ≤ 7 := by
  unfold CCState.skipGpr at h
  split at h
  · exact Except.noConfusion h
  · cases h
    exact ⟨rfl, by show s.gprsLeft - 1 ≤ 7; omega⟩

theorem assignToGpr_a0 {xlen : Nat} {it : Item} {s s' : CCState}
    (h : s.assignToGpr xlen it = .ok s') (hg : s.gprsLeft ≤ 7) :
    s'.gprs[0]? = s.gprs[0]? ∧ s'.gprsLeft ≤ 7 := by
  unfold CCState.assignToGpr at h
  split at h
  · exact Except.noConfusion h
  · split at h
    · exact Except.noConfusion h
    · rename_i hnz
      cases h
      refine ⟨?_, by show s.gprsLeft - 1 ≤ 7; omega⟩
      show (s.gprs.set (8 - s.gprsLeft) (some it))[0]? = s.gprs[0]?
      exact List.getElem?_set_ne (by omega)

theorem assignToStack_a0 {xlen : Nat} {it : Item} {s s' : CCState}
    (h : s.assignToStack xlen it = .ok s') (hg : s.gprsLeft ≤ 7) :
    s'.gprs[0]? = s.gprs[0]? ∧ s'.gprsLeft ≤ 7 := by
  unfold CCState.assignToStack at h
  split at h
  · exact Except.noConfusion h
  · cases h
    exact ⟨rfl, hg⟩

theorem assignToFpr_a0 {flen : Nat} {it : Item} {s s' : CCState}
    (h : s.assignToFpr flen it = .ok s') (hg : s.gprsLeft ≤ 7) :
    s'.gprs[0]? = s.gprs[0]? ∧ s'.gprsLeft ≤ 7 := by
  unfold CCState.assignToFpr at h
  split at h
  · exact Except.noConfusion h
  · split at h
    · exact Except.noConfusion h
    · cases h
      exact ⟨rfl, hg⟩

theorem assignToGprOrStack_a0 {xlen : Nat} {it : Item} {s s' : CCState}
    (h : s.assignToGprOrStack xlen it = .ok s') (hg : s.gprsLeft ≤ 7) :
    s'.gprs[0]? = s.gprs[0]? ∧ s'.gprsLeft ≤ 7 := by
  unfold CCState.assignToGprOrStack at h
  split at h
  · exact Except.noConfusion h
  · split at h
    · exact assignToGpr_a0 h hg
    · exact assignToStack_a0 h hg

theorem fpConvArg_a0 {xlen : Nat} {flen : Option Nat} {v : Bool} {nm : PName} {ty : Ty}
    {s s' : CCState} (h : fpConvArg xlen flen v nm ty s = .ok (some s'))
    (hg : s.gprsLeft ≤ 7) : s'.gprs[0]? = s.gprs[0]? ∧ s'.gprsLeft ≤ 7 := by
  unfold fpConvArg at h
  split at h
  · exact Option.noConfusion (Except.ok.inj h)
  · split at h
    · exact Option.noConfusion (Except.ok.inj h)
    · split at h
      · exact Option.noConfusion (Except.ok.inj h)
      · split at h
        · exact Except.noConfusion h
        · split at h
          · split at h
            · exact Except.noConfusion h
            · rename_i s1 heq
              obtain rfl := Option.some.inj (Except.ok.inj h)
              exact assignToFpr_a0 heq hg
          · split at h
            · split at h
              · rename_i ty1 ty2 hmem
                split at h
                · split at h
                  · exact Except.noConfusion h
                  · rename_i s1 heq
                    split at h
                    · exact Except.noConfusion h
                    · rename_i s2 heq2
                      obtain rfl := Option.some.inj (Except.ok.inj h)
                      obtain ⟨h1, h1g⟩ := assignToFpr_a0 heq hg
                      obtain ⟨h2, h2g⟩ := assignToFpr_a0 heq2 h1g
                      exact ⟨h2.trans h1, h2g⟩
                · split at h
                  · split at h
                    · exact Except.noConfusion h
                    · rename_i s1 heq
                      split at h
                      · exact Except.noConfusion h
                      · rename_i s2 heq2
                        obtain rfl := Option.some.inj (Except.ok.inj h)
                        obtain ⟨h1, h1g⟩ := assignToFpr_a0 heq hg
                        obtain ⟨h2, h2g⟩ := assignToGpr_a0 heq2 h1g
                        exact ⟨h2.trans h1, h2g⟩
                  · split at h
                    · split at h
                      · exact Except.noConfusion h
                      · rename_i s1 heq
                        split at h
                        · exact Except.noConfusion h
                        · rename_i s2 heq2
                          obtain rfl := Option.some.inj (Except.ok.inj h)
                          obtain ⟨h1, h1g⟩ := assignToGpr_a0 heq hg
                          obtain ⟨h2, h2g⟩ := assignToFpr_a0 heq2 h1g
                          exact ⟨h2.trans h1, h2g⟩
                    · exact Option.noConfusion (Except.ok.inj h)
              · exact Option.noConfusion (Except.ok.inj h)
            · exact Option.noConfusion (Except.ok.inj h)

theorem intConvArg_a0 {xlen : Nat} {v : Bool} {nm : PName} {ty : Ty} {s s' : CCState}
    (h : intConvArg xlen v nm ty s = .ok s') (hg : s.gprsLeft ≤ 7) :
    s'.gprs[0]? = s.gprs[0]? ∧ s'.gprsLeft ≤ 7 := by
  unfold intConvArg at h
  split at h
  · exact Except.noConfusion h
  · split at h
    · exact assignToGprOrStack_a0 h hg
    · split at h
      · split at h
        · exact Except.noConfusion h
        · rename_i s1 heq
          have hs1 : s1.gprs[0]? = s.gprs[0]? ∧ s1.gprsLeft ≤ 7 := by
            split at heq
            · exact skipGpr_a0 heq hg
            · cases heq
              exact ⟨rfl, hg⟩
          split at h
          · split at h
            · exact Except.noConfusion h
            · rename_i s2 heq2
              obtain ⟨h2, h2g⟩ := assignToGprOrStack_a0 heq2 hs1.2
              obtain ⟨h3, h3g⟩ := assignToGprOrStack_a0 h h2g
              exact ⟨(h3.trans h2).trans hs1.1, h3g⟩
          · obtain ⟨h2, h2g⟩ := assignToStack_a0 h hs1.2
            exact ⟨h2.trans hs1.1, h2g⟩
      · exact assignToGprOrStack_a0 h hg

theorem classifyArg_a0 {xlen : Nat} {flen : Option Nat} {vai : Nat} {s s' : CCState}
    {p : Nat × Ty} (h : classifyArg xlen flen vai s p = .ok s') (hg : s.gprsLeft ≤ 7) :
    s'.gprs[0]? = s.gprs[0]? ∧ s'.gprsLeft ≤ 7 := by
  unfold classifyArg at h
  split at h
  · exact Except.noConfusion h
  · rename_i s1 heq
    cases h
    exact fpConvArg_a0 heq hg
  · exact intConvArg_a0 h hg

theorem processArgs_a0 {xlen : Nat} {flen : Option Nat} {vai : Nat} :
    ∀ (l : List (Nat × Ty)) (s s' : CCState), processArgs xlen flen vai s l = .ok s' →
      s.gprsLeft ≤ 7 → s'.gprs[0]? = s.gprs[0]? ∧ s'.gprsLeft ≤ 7
  | [], s, s', h, hg => by
    cases h
    exact ⟨rfl, hg⟩
  | p :: rest, s, s', h, hg => by
    unfold processArgs at h
    split at h
    · exact Except.noConfusion h
    · rename_i s1 heq
      obtain ⟨h1, h1g⟩ := classifyArg_a0 heq hg
      obtain ⟨h2, h2g⟩ := processArgs_a0 rest s1 s' h h1g
      exact ⟨h2.trans h1, h2g⟩

/-- Claim C3, amended: with an FP register file configured and a struct
return type of size at most `2*flen`, a pointer return is synthesized into
the first integer argument slot of the call exactly when the padding-free
flattened form has *exactly two* leaves and they fail all three patterns
float+float, float+int, int+float (with the register-width limits); when the
leaf count differs from two, no pointer is synthesized for this struct
return (even if its size exceeds `2*xlen`, since the `elif` is skipped). -/
theorem c3_struct_return_byref (xlen f oid : Nat) (inArgs : List Obj) (T t1 t2 : Ty)
    (hx : validWidth xlen = true) (hfv : validWidth f = true)
    (hT : T.isStruct = true) (hsz : T.size ≤ 2 * f)
    (hmems : (mkStruct T.flatten).members.filter (fun m => !m.isPad) = [t1, t2])
    (hpat : ¬ ((t1.isFP = true ∧ t2.isFP = true ∧ t1.size ≤ f ∧ t2.size ≤ f) ∨
               (t1.isFP = true ∧ t2.isInt = true ∧ t1.size ≤ f ∧ t2.size ≤ xlen) ∨
               (t1.isInt = true ∧ t2.isFP = true ∧ t1.size ≤ xlen ∧ t2.size ≤ f)))
    (s' : CCState) (hok : rvCall xlen (some f) inArgs (some (Obj.ty oid T)) = .ok s') :
    s'.gprs[0]? = some (some (Item.refTo .ret xlen)) := by
  have hf0 : f ≠ 0 := by
    have := validWidth_pos hfv
    omega
  have hft : flenTruthy (some f) = true := by
    simp [flenTruthy, hf0]
  unfold rvCall rvCallFull at hok
  rw [if_pos ⟨hx, fun _ => hfv⟩] at hok
  replace hok : rvCallBody xlen (some f) (unwrapVarArgs inArgs).1 (unwrapVarArgs inArgs).2
      (some (Obj.ty oid T)) = .ok s' := hok
  unfold rvCallBody at hok
  split at hok
  · exact Except.noConfusion hok
  · split at hok
    · exact Except.noConfusion hok
    · split at hok
      · exact Except.noConfusion hok
      · rename_i s0 hret
        have houtty : outTyOf (unwrapVarArgs inArgs).1 (some (Obj.ty oid T)) = some T := rfl
        rw [houtty] at hret
        unfold classifyRetType at hret
        split at hret
        · exact Option.noConfusion (by assumption)
        · rename_i out hout
          obtain rfl := Option.some.inj hout
          rw [if_pos ⟨hft, hT, by simpa using hsz⟩] at hret
          rw [hmems] at hret
          split at hret
          · rename_i heqm
            obtain ⟨rfl, rfl⟩ : t1 = _ ∧ t2 = _ := by
              have h1 := List.cons.inj heqm
              have h2 := List.cons.inj h1.2
              exact ⟨h1.1, h2.1⟩
            rw [if_neg (by simpa using hpat)] at hret
            have hpbr : (initState (flenTruthy (some f))).passByReference xlen .ret
                = .ok { initState (flenTruthy (some f)) with
                          gprs := ((initState (flenTruthy (some f))).gprs.set 0
                            (some (Item.refTo .ret xlen)))
                          gprsLeft := 7 } := by
              unfold CCState.passByReference CCState.assignToGprOrStack
              rw [if_neg (by simp [Item.size]), if_pos (by show 1 ≤ 8; omega)]
              rw [assignToGpr_ok xlen (Item.refTo PName.ret xlen)
                (by simp [Item.size]) (by show (8 : Nat) ≠ 0; omega)]
              rfl
            rw [hpbr] at hret
            obtain rfl := Except.ok.inj hret
            obtain ⟨hpres, _⟩ := processArgs_a0 _ _ _ hok (by show (7 : Nat) ≤ 7; omega)
            rw [hpres]
            show ((initState (flenTruthy (some f))).gprs.set 0
              (some (Item.refTo .ret xlen)))[0]? = _
            rfl
          · rename_i hcontra
            exact absurd rfl (hcontra t1 t2)

/-- Claim C3 (amended), witness: `xlen=32, flen=64`, return type
`Struct(Int32, Int32)` — two integer leaves match no pattern, so the
synthesized pointer return occupies integer register slot 0. -/
theorem c3_struct_return_byref_witness :
    ∃ s', rvCall 32 (some 64) [] (some (Obj.ty 0 (mkStruct [Ty.int 32 true, Ty.int 32 true])))
        = .ok s' ∧ s'.gprs[0]? = some (some (Item.refTo .ret 32)) := by
  have hok : ∃ s', rvCall 32 (some 64) []
      (some (Obj.ty 0 (mkStruct [Ty.int 32 true, Ty.int 32 true]))) = .ok s' := by
    exact ⟨_, rfl⟩
  obtain ⟨s', hs'⟩ := hok
  exact ⟨s', hs', c3_struct_return_byref 32 64 0 [] (mkStruct [Ty.int 32 true, Ty.int 32 true])
    (Ty.int 32 true) (Ty.int 32 true) (by decide) (by decide) rfl (by decide) rfl
    (by decide) s' hs'⟩

/-! Machinery for claim C5 (amended): symbolic execution of `ret` on a scalar
type that takes the plain integer convention to integer register 0. -/

theorem fpConvArg_notfp (xlen : Nat) (flen : Option Nat) (b : Bool) (nm : PName) (T : Ty)
    (s : CCState) (hstruct : T.isStruct = false) (hfp : T.isFP = false) :
    fpConvArg xlen flen b nm T s = .ok none := by
  unfold fpConvArg
  split
  · rfl
  · rename_i f
    split
    · rfl
    · split
      · rfl
      · have hfa : flattenArg xlen f T = .ok T := by
          unfold flattenArg
          rw [if_neg (by simp [hstruct])]
        rw [hfa]
        simp [hfp, hstruct]

theorem fpConvArg_fp_large (xlen : Nat) (flen : Option Nat) (b : Bool) (nm : PName)
    (sz : Nat) (s : CCState) (hnot : ∀ f, flen = some f → ¬ sz ≤ f) :
    fpConvArg xlen flen b nm (Ty.fp sz) s = .ok none := by
  unfold fpConvArg
  split
  · rfl
  · rename_i f
    split
    · rfl
    · split
      · rfl
      · have hfa : flattenArg xlen f (Ty.fp sz) = .ok (Ty.fp sz) := by
          unfold flattenArg
          rw [if_neg (by simp [Ty.isStruct])]
        rw [hfa]
        simp [hnot f rfl, Ty.isStruct, Ty.isFP, Ty.size]

theorem rvCall_scalar_gpr (xlen : Nat) (flen : Option Nat) (T : Ty)
    (hx : validWidth xlen = true)
    (hf : flenTruthy flen = true → validWidth (flen.getD 0) = true)
    (hpos : 0 < T.size) (hle : T.size ≤ xlen)
    (hpoison : T.isPoison = false) (harr : T.isArray = false)
    (hfpc : ∀ (b : Bool) (nm : PName) (s : CCState), fpConvArg xlen flen b nm T s = .ok none) :
    rvCall xlen flen [Obj.ty 0 T] none
      = .ok ⟨7, [some (.whole (.arg 0) T), none, none, none, none, none, none, none],
             (if flenTruthy flen then 8 else 0), List.replicate 8 none, []⟩ := by
  unfold rvCall rvCallFull
  rw [if_pos ⟨hx, hf⟩]
  simp only [rvCallBody, unwrapVarArgs, copyArgs, promoteArgs, outTyOf, isArrayOpt,
    verifyArgList, classifyRetType, processArgs, classifyArg,
    intConvArg, argName, CCState.assignToGprOrStack, CCState.assignToGpr,
    CCState.passByReference, initState, Obj.setId,
    Obj.objId, Obj.isVarArgs, promoteVarArg]
  simp [hpos, hle, Nat.not_lt.mpr hle, hpoison, harr, hfpc, List.filterMap_cons, Obj.toTy,
    List.filter_cons, processArgs, classifyArg, intConvArg, argName, Obj.isVarArgs,
    List.any_cons, CCState.assignToGprOrStack, CCState.assignToGpr, Item.size]

theorem rvRet_scalar (xlen : Nat) (flen : Option Nat) (T : Ty)
    (hx : validWidth xlen = true)
    (hf : flenTruthy flen = true → validWidth (flen.getD 0) = true)
    (hpos : 0 < T.size) (hle : T.size ≤ xlen)
    (hpoison : T.isPoison = false) (harr : T.isArray = false)
    (hfpc : ∀ (b : Bool) (nm : PName) (s : CCState), fpConvArg xlen flen b nm T s = .ok none) :
    rvRet xlen flen T
      = .ok ⟨7, [some (.whole .ret T), none, none, none, none, none, none, none],
             (if flenTruthy flen then 8 else 0), List.replicate 8 none, []⟩ := by
  unfold rvRet
  rw [rvCall_scalar_gpr xlen flen T hx hf hpos hle hpoison harr hfpc]
  simp [CCState.markRet, Item.markRet, Nat.pos_iff_ne_zero.mp hpos]

/-- Claim C5, amended: `classifyReturn(T)` for a scalar `T` with
`0 < size(T) ≤ W` places `T` in integer register 0 only (no other integer
register, no FP register, no stack slot) — *except* floating-point scalars
within the FP register width on a machine with an FP register file, which go
to FP register 0 instead.  The exception is excluded by `hnotfp`. -/
theorem c5_scalar_return (xlen : Nat) (flen : Option Nat) (T : Ty)
    (hx : validWidth xlen = true)
    (hf : flenTruthy flen = true → validWidth (flen.getD 0) = true)
    (hscalar : (∃ s sg, T = Ty.int s sg) ∨ (∃ s, T = Ty.fp s) ∨ (∃ s, T = Ty.ptr s))
    (hpos : 0 < T.size) (hle : T.size ≤ xlen)
    (hnotfp : ∀ s f, T = Ty.fp s → flen = some f → ¬ s ≤ f) :
    rvRet xlen flen T
      = .ok ⟨7, [some (.whole .ret T), none, none, none, none, none, none, none],
             (if flenTruthy flen then 8 else 0), List.replicate 8 none, []⟩ := by
  have hfpc : ∀ (b : Bool) (nm : PName) (s : CCState),
      fpConvArg xlen flen b nm T s = .ok none := by
    rcases hscalar with ⟨sz, sg, rfl⟩ | ⟨sz, rfl⟩ | ⟨sz, rfl⟩
    · exact fun b nm s => fpConvArg_notfp xlen flen b nm _ s rfl rfl
    · exact fun b nm s => fpConvArg_fp_large xlen flen b nm sz s
        (fun f hf' => hnotfp sz f rfl hf')
    · exact fun b nm s => fpConvArg_notfp xlen flen b nm _ s rfl rfl
  have hpoison : T.isPoison = false := by
    rcases hscalar with ⟨sz, sg, rfl⟩ | ⟨sz, rfl⟩ | ⟨sz, rfl⟩ <;> rfl
  have harr : T.isArray = false := by
    rcases hscalar with ⟨sz, sg, rfl⟩ | ⟨sz, rfl⟩ | ⟨sz, rfl⟩ <;> rfl
  exact rvRet_scalar xlen flen T hx hf hpos hle hpoison harr hfpc

/-- Claim C5 (amended), witness: `ret(Int32)` on `RVMachine(xlen=64, flen=64)`
lands in integer register 0 only. -/
theorem c5_scalar_return_witness :
    rvRet 64 (some 64) (Ty.int 32 true)
      = .ok ⟨7, [some (.whole .ret (Ty.int 32 true)), none, none, none, none, none, none, none],
             8, List.replicate 8 none, []⟩ :=
  c5_scalar_return 64 (some 64) (Ty.int 32 true) (by decide) (fun _ => by decide)
    (Or.inl ⟨32, true, rfl⟩) (by decide) (by decide)
    (fun s f heq _ => Ty.noConfusion heq)

end RVCC
